import Mathlib

/-!
Shallow embedding of the CodeAgent repository (a file-backed task queue with
an LLM-driven task orchestrator) and verification of its specification.

Sources embedded:
  * src/src/queue/taskQueue.ts   — the durable Queue Store
  * src/src/agent/codeGenerator.ts — plan / commit-message generation with fallbacks
  * src/src/agent/taskManager.ts — the multi-step task orchestrator

Conventions of the embedding:
  * timestamps (`new Date().toISOString()`) are modelled by a monotone `Nat` clock,
    supplied as the `now` argument of each operation;
  * file-system reads are modelled by an `Except String TaskQueueData` argument
    (`.error` = the read threw), writes by a `writeOk : Bool` argument;
  * each store operation returns the JS result (or thrown error) together with the
    content of the persisted store after the operation;
  * the OpenAI capability boundary is modelled by oracle arguments
    (`Except String _` for calls that may throw, `Option _` for nullable content).
-/

namespace CodeAgent

/-- The `pr` field of a `TaskResult` (taskQueue.ts, `TaskResult.pr`). -/
structure PRInfo where
  number : Nat
  url : String
deriving DecidableEq

/-- A `{ path, content }` file record (githubClient `FileData`). -/
structure FileRec where
  path : String
  content : String
deriving DecidableEq

/-- Model of `TaskResult` from taskQueue.ts. -/
structure TaskResult where
  success : Bool
  taskId : String
  branchName : String
  files : List FileRec
  commitMessage : String
  pr : Option PRInfo := none
deriving DecidableEq

/-- Task status literals `'pending' | 'processing' | 'completed' | 'failed'`. -/
inductive TaskStatus where
  | pending
  | processing
  | completed
  | failed
deriving DecidableEq

/-- Model of `TaskOptions` from taskQueue.ts; `none` models an absent (undefined) key. -/
structure TaskOptions where
  createPR : Option Bool := none
  baseBranch : Option String := none
  branchName : Option String := none
  requirements : Option String := none
  existingFiles : Option (List (String × String)) := none
deriving DecidableEq

/-- Model of `Task` from taskQueue.ts. -/
structure Task where
  id : String
  description : String
  status : TaskStatus
  createdAt : Nat
  startedAt : Option Nat := none
  completedAt : Option Nat := none
  failedAt : Option Nat := none
  options : TaskOptions := {}
  result : Option TaskResult := none
  error : Option String := none
deriving DecidableEq

/-- Model of `TaskQueueData`: the four partitions of the persisted store. -/
structure TaskQueueData where
  pending : List Task
  processing : List Task
  completed : List Task
  failed : List Task
deriving DecidableEq

/-- The empty store `{ pending: [], processing: [], completed: [], failed: [] }`. -/
def emptyQueueData : TaskQueueData :=
  { pending := [], processing := [], completed := [], failed := [] }

/-- Model of `TaskQueue.loadTasks`: reads and parses the queue file; on a read error it
catches, logs, and returns the empty structure (taskQueue.ts lines 94-102). -/
def loadTasks (readResult : Except String TaskQueueData) : TaskQueueData :=
  match readResult with
  | .ok d => d
  | .error _ => emptyQueueData

/-- Model of `TaskQueue.saveTasks`: writes the whole store; a write error is re-thrown
(taskQueue.ts lines 107-114). -/
def saveTasks (writeOk : Bool) (tasks : TaskQueueData) : Except String TaskQueueData :=
  if writeOk then .ok tasks else .error "Error saving tasks"

/-- JS object-spread semantics for one field: `{ ...base, ...override }` keeps the
base value only when the override object has no such key. -/
def spreadField {α : Type} (base override : Option α) : Option α :=
  match override with
  | some x => some x
  | none => base

/-- JS `options.baseBranch || 'main'`: `undefined` and the empty string are falsy. -/
def jsOrMain (baseBranch : Option String) : String :=
  match baseBranch with
  | some s => if s == "" then "main" else s
  | none => "main"

/-- The options object built by `addTask` (taskQueue.ts lines 126-132): defaults
for `createPR` and `baseBranch` are computed first, then `...options` is spread
last, so every caller-supplied key overrides the computed default. -/
def mergeOptions (options : TaskOptions) : TaskOptions :=
  { createPR := spreadField (some (options.createPR != some false)) options.createPR
  , baseBranch := spreadField (some (jsOrMain options.baseBranch)) options.baseBranch
  , branchName := spreadField options.branchName options.branchName
  , requirements := spreadField options.requirements options.requirements
  , existingFiles := spreadField none options.existingFiles }

/-- Model of `TaskQueue.addTask` (taskQueue.ts lines 119-140). The generated id and the
current time are parameters of the embedding. Returns the JS result and the
persisted store after the call. -/
def addTask (id : String) (now : Nat) (taskDescription : String) (options : TaskOptions)
    (readResult : Except String TaskQueueData) (writeOk : Bool) :
    Except String Task × TaskQueueData :=
  let tasks := loadTasks readResult
  let task : Task :=
    { id := id
    , description := taskDescription
    , status := .pending
    , createdAt := now
    , options := mergeOptions options }
  let tasks' := { tasks with pending := tasks.pending ++ [task] }
  match saveTasks writeOk tasks' with
  | .ok saved => (.ok task, saved)
  | .error e => (.error e, tasks)

/-- Model of `TaskQueue.getNextTask` (taskQueue.ts lines 145-158): shifts the head of
`pending`, stamps it, appends to `processing`, persists. Returns `none` (JS
`null`) with the store untouched when `pending` is empty. -/
def getNextTask (now : Nat) (readResult : Except String TaskQueueData) (writeOk : Bool) :
    Except String (Option Task) × TaskQueueData :=
  let tasks := loadTasks readResult
  match tasks.pending with
  | [] => (.ok none, tasks)
  | t :: rest =>
    let t' := { t with status := .processing, startedAt := some now }
    let tasks' := { tasks with pending := rest, processing := tasks.processing ++ [t'] }
    match saveTasks writeOk tasks' with
    | .ok saved => (.ok (some t'), saved)
    | .error e => (.error e, tasks)

/-- Embedding of `findIndex` + element access + `splice(index, 1)` on the first task matching
the predicate: returns the removed task and the remaining list. -/
def extractFirst (p : Task → Bool) : List Task → Option (Task × List Task)
  | [] => none
  | t :: ts =>
    if p t then some (t, ts)
    else (extractFirst p ts).map (fun x => (x.1, t :: x.2))

/-- Model of `TaskQueue.completeTask` (taskQueue.ts lines 163-181). -/
def completeTask (taskId : String) (now : Nat) (result : TaskResult)
    (readResult : Except String TaskQueueData) (writeOk : Bool) :
    Except String Task × TaskQueueData :=
  let tasks := loadTasks readResult
  match extractFirst (fun t => t.id == taskId) tasks.processing with
  | none => (.error ("Task " ++ taskId ++ " not found in processing queue"), tasks)
  | some (t, rest) =>
    let t' := { t with status := .completed, completedAt := some now, result := some result }
    let tasks' := { tasks with processing := rest, completed := tasks.completed ++ [t'] }
    match saveTasks writeOk tasks' with
    | .ok saved => (.ok t', saved)
    | .error e => (.error e, tasks)

/-- Model of `TaskQueue.failTask` (taskQueue.ts lines 186-217): looks in `processing`
first, then in `pending`; moves the task to `failed`. -/
def failTask (taskId : String) (now : Nat) (errMsg : String)
    (readResult : Except String TaskQueueData) (writeOk : Bool) :
    Except String Task × TaskQueueData :=
  let tasks := loadTasks readResult
  match extractFirst (fun t => t.id == taskId) tasks.processing with
  | some (t, rest) =>
    let t' := { t with status := .failed, failedAt := some now, error := some errMsg }
    let tasks' := { tasks with processing := rest, failed := tasks.failed ++ [t'] }
    match saveTasks writeOk tasks' with
    | .ok saved => (.ok t', saved)
    | .error e => (.error e, tasks)
  | none =>
    match extractFirst (fun t => t.id == taskId) tasks.pending with
    | some (t, rest) =>
      let t' := { t with status := .failed, failedAt := some now, error := some errMsg }
      let tasks' := { tasks with pending := rest, failed := tasks.failed ++ [t'] }
      match saveTasks writeOk tasks' with
      | .ok saved => (.ok t', saved)
      | .error e => (.error e, tasks)
    | none => (.error ("Task " ++ taskId ++ " not found"), tasks)

/-- Model of `TaskQueue.retryTask` (taskQueue.ts lines 222-246): moves a failed task back
to `pending`, clearing `error`, `failedAt`, `startedAt`, `completedAt`, `result`
and resetting `createdAt` to now. -/
def retryTask (taskId : String) (now : Nat)
    (readResult : Except String TaskQueueData) (writeOk : Bool) :
    Except String Task × TaskQueueData :=
  let tasks := loadTasks readResult
  match extractFirst (fun t => t.id == taskId) tasks.failed with
  | none => (.error ("Task " ++ taskId ++ " not found in failed queue"), tasks)
  | some (t, rest) =>
    let t' := { t with
                status := .pending
                createdAt := now
                error := none
                failedAt := none
                startedAt := none
                completedAt := none
                result := none }
    let tasks' := { tasks with failed := rest, pending := tasks.pending ++ [t'] }
    match saveTasks writeOk tasks' with
    | .ok saved => (.ok t', saved)
    | .error e => (.error e, tasks)

/-- All task ids in the store, in partition order. -/
def allIds (d : TaskQueueData) : List String :=
  (d.pending ++ d.processing ++ d.completed ++ d.failed).map Task.id

/-- Partition exclusivity: every task id appears in exactly one partition, once. -/
def ExclusivePartition (d : TaskQueueData) : Prop :=
  (allIds d).Nodup

instance (d : TaskQueueData) : Decidable (ExclusivePartition d) := by
  unfold ExclusivePartition
  infer_instance

/-- The stamping done by `getNextTask` on a dequeued task. -/
def stampProcessing (now : Nat) (t : Task) : Task :=
  { t with status := .processing, startedAt := some now }

/-- Arguments of one `addTask` call in a sequence of calls. -/
structure AddParams where
  id : String
  now : Nat
  description : String
  options : TaskOptions
deriving DecidableEq

/-- The task constructed by `addTask` for the given call arguments. -/
def mkTask (p : AddParams) : Task :=
  { id := p.id
  , description := p.description
  , status := .pending
  , createdAt := p.now
  , options := mergeOptions p.options }

/-- A sequence of successful `addTask` calls applied to the store. -/
def addAll (ps : List AddParams) (d : TaskQueueData) : TaskQueueData :=
  ps.foldl (fun acc p => (addTask p.id p.now p.description p.options (.ok acc) true).2) d

/-- A sequence of `n` successful `getNextTask` calls: the dequeued tasks in call
order, and the store afterwards. Stops early when `pending` runs out. -/
def drainN (now : Nat) : Nat → TaskQueueData → List Task × TaskQueueData
  | 0, d => ([], d)
  | n + 1, d =>
    match getNextTask now (.ok d) true with
    | (.ok (some t), d') =>
      let r := drainN now n d'
      (t :: r.1, r.2)
    | _ => ([], d)

/-! ## Code generator (src/src/agent/codeGenerator.ts) -/

/-- Step status literals `'pending' | 'in-progress' | 'completed' | 'failed'`. -/
inductive StepStatus where
  | pending
  | inProgress
  | completed
  | failed
deriving DecidableEq

/-- The `result` attached to a completed plan step. -/
structure StepResultRec where
  files : List FileRec
  commitMessage : String
deriving DecidableEq

/-- Model of `PlanStep`, as consumed by the orchestrator. -/
structure PlanStep where
  id : String
  description : String
  status : StepStatus
  order : Nat
  dependencies : List String
  result : Option StepResultRec := none
  error : Option String := none
deriving DecidableEq

/-- Model of `Plan`. -/
structure Plan where
  steps : List PlanStep
  currentStepIndex : Nat
deriving DecidableEq

/-- A step as parsed from the planning capability's output (`PlanStepSchema`):
`dependencies` is optional. -/
structure RawStep where
  id : String
  description : String
  order : Nat
  dependencies : Option (List String)
deriving DecidableEq

/-- Model of `CodeGenerator.generatePlan` (codeGenerator.ts lines 192-272). The capability
call is modelled by `resp`: `.error` = the API call threw (including unparseable
output), `.ok none` = null parsed content (the code then throws inside its own
`try` and the `catch` takes over), `.ok (some raw)` = parsed steps. The `catch`
falls back to a single-step plan wrapping the whole description. -/
def generatePlan (taskDescription : String)
    (resp : Except String (Option (List RawStep))) : Plan :=
  match resp with
  | .ok (some raw) =>
    { steps := raw.map (fun s =>
        { id := s.id
        , description := s.description
        , status := .pending
        , order := s.order
        , dependencies := s.dependencies.getD [] })
    , currentStepIndex := 0 }
  | .ok none =>
    { steps := [{ id := "step-1", description := taskDescription
                , status := .pending, order := 1, dependencies := [] }]
    , currentStepIndex := 0 }
  | .error _ =>
    { steps := [{ id := "step-1", description := taskDescription
                , status := .pending, order := 1, dependencies := [] }]
    , currentStepIndex := 0 }

/-- Model of `CodeGenerator.generateCommitMessage` (codeGenerator.ts lines 160-187). The
capability call is modelled by `resp`: `.error` = the API call threw, `.ok c` =
the returned `message.content` (`none` = null). JS truthiness: null and the
empty string both select the templated fallback; otherwise the message is
trimmed. -/
def generateCommitMessage (taskDescription : String) (files : List FileRec)
    (resp : Except String (Option String)) : String :=
  match resp with
  | .error _ => "feat: " ++ taskDescription
  | .ok none => "feat: " ++ taskDescription
  | .ok (some m) => if m == "" then "feat: " ++ taskDescription else m.trim

/-! ## Multi-step orchestrator (src/src/agent/taskManager.ts) -/

/-- Observable events of a multi-step run: `execStep i` = `processStep` (and
hence code generation) was invoked for the step at index `i`; `commitStep i` =
the step's files were committed via `createOrUpdateFiles`; `prCall` = a pull
request creation was attempted. -/
inductive Event where
  | execStep (i : Nat)
  | commitStep (i : Nat)
  | prCall
deriving DecidableEq

/-- Oracle for the external effects of `processMultiStepTask`, indexed by the
invocation's step index: `exec` = the outcome of `processStep` (code generation
plus local save plus step commit-message), `commitFiles` = `createOrUpdateFiles`,
`createPRCall` = `createPullRequest` (`.ok none` = response without a usable
`pr` shape), `finalCommitMessage` = the final `generateCommitMessage` (total:
it falls back internally). -/
structure MultiStepEnv where
  exec : Nat → Except String StepResultRec
  commitFiles : Nat → Except String Unit
  createPRCall : Except String (Option PRInfo)
  finalCommitMessage : String

/-- Mutable state of the step loop in `processMultiStepTask`: the plan's steps
(statuses are mutated in place), the accumulated files `allFiles`, the created
PR, and the trace of external events so far. -/
structure RunState where
  steps : List PlanStep
  acc : List FileRec
  pr : Option PRInfo
  trace : List Event
deriving DecidableEq

/-- One dependency check of taskManager.ts lines 228-231: the dependency id is
unmet when it does not resolve (`find` returns undefined) or resolves to a step
whose status is not `completed`. -/
def depUnmet (steps : List PlanStep) (depId : String) : Bool :=
  match steps.find? (fun s => s.id == depId) with
  | some ds => !(ds.status == .completed)
  | none => true

/-- The dependency guard of taskManager.ts lines 227-238: only steps with a
non-empty dependency list are checked, and the task is failed when some
dependency is unmet. -/
def hasUnmetDeps (steps : List PlanStep) (step : PlanStep) : Bool :=
  !step.dependencies.isEmpty && step.dependencies.any (depUnmet steps)

/-- The unmet-dependencies error message thrown at taskManager.ts line 234. -/
def unmetDepsMsg (step : PlanStep) : String :=
  "Step " ++ step.id ++ " has unmet dependencies: " ++ String.intercalate ", " step.dependencies

/-- The step loop of `TaskManager.processMultiStepTask` (taskManager.ts lines
223-315), from step index `i` onwards, with `fuel` a bound on the remaining
iterations (`steps.length` at entry). The unmet-dependency throw happens before
the per-step `try`; inside the `try`, a failure of `processStep`, of the step
commit, or of the PR creation marks the step `failed` with the error and
re-throws, aborting the loop. On success the step is marked `completed`, its
files are accumulated, and after the first step a PR is created if requested. -/
def runAux (env : MultiStepEnv) (createPR : Bool) :
    Nat → Nat → RunState → Except String (List FileRec × String) × RunState
  | 0, _, st => (.ok (st.acc, env.finalCommitMessage), st)
  | fuel + 1, i, st =>
    match st.steps[i]? with
    | none => (.ok (st.acc, env.finalCommitMessage), st)
    | some step =>
      if hasUnmetDeps st.steps step then
        (.error (unmetDepsMsg step), st)
      else
        let step1 := { step with status := .inProgress }
        let steps1 := st.steps.set i step1
        match env.exec i with
        | .error e =>
          let step2 := { step1 with status := .failed, error := some e }
          (.error e, { st with steps := steps1.set i step2, trace := st.trace ++ [.execStep i] })
        | .ok out =>
          let step2 := { step1 with status := .completed, result := some out }
          let steps2 := steps1.set i step2
          let acc2 := st.acc ++ out.files
          let trace2 := st.trace ++ [.execStep i]
          match env.commitFiles i with
          | .error e =>
            let step3 := { step2 with status := .failed, error := some e }
            (.error e, { steps := steps2.set i step3, acc := acc2, pr := st.pr, trace := trace2 })
          | .ok _ =>
            let trace3 := trace2 ++ [.commitStep i]
            if i == 0 && createPR && st.pr == none then
              match env.createPRCall with
              | .error e =>
                let step3 := { step2 with status := .failed, error := some e }
                (.error e, { steps := steps2.set i step3, acc := acc2, pr := st.pr, trace := trace3 ++ [.prCall] })
              | .ok prRes =>
                runAux env createPR fuel (i + 1)
                  { steps := steps2, acc := acc2, pr := prRes, trace := trace3 ++ [.prCall] }
            else
              runAux env createPR fuel (i + 1)
                { steps := steps2, acc := acc2, pr := st.pr, trace := trace3 }

/-- Model of `TaskManager.processMultiStepTask` on a plan: run the step loop from index 0
with an empty accumulator and no PR. `createPR` is the already-resolved
`options.createPR !== false`. -/
def processMultiStepTask (env : MultiStepEnv) (createPR : Bool) (plan : Plan) :
    Except String (List FileRec × String) × RunState :=
  runAux env createPR plan.steps.length 0
    { steps := plan.steps, acc := [], pr := none, trace := [] }

/-! ## Step context construction (`TaskManager.processStep`, lines 357-369) -/

/-- Overwriting one entry of a JS object when its key matches. -/
def replaceKey (k v : String) (kv : String × String) : String × String :=
  if kv.1 == k then (k, v) else kv

/-- JS object key assignment `m[k] = v`: overwrite in place, else append. -/
def setKey (m : List (String × String)) (k v : String) : List (String × String) :=
  if m.any (fun kv => kv.1 == k) then m.map (replaceKey k v)
  else m ++ [(k, v)]

/-- The `existingFilesMap` loop: `for (const file of existingFiles) map[file.path] = file.content`. -/
def buildFilesMap (files : List FileRec) : List (String × String) :=
  files.foldl (fun m f => setKey m f.path f.content) []

/-- JS object spread `{ ...m1, ...m2 }`: every key of `m2` overrides `m1`. -/
def spreadMerge (m1 m2 : List (String × String)) : List (String × String) :=
  m2.foldl (fun m kv => setKey m kv.1 kv.2) m1

/-- JS property lookup on the association-list model of an object. -/
def lookupKey (m : List (String × String)) (k : String) : Option String :=
  (m.find? (fun kv => kv.1 == k)).map (fun kv => kv.2)

/-- The `context.existingFiles` object built by `processStep`:
`{ ...existingFilesMap, ...options.existingFiles }`, where spreading an
undefined `options.existingFiles` is a no-op. -/
def stepContextFiles (accumulated : List FileRec)
    (optFiles : Option (List (String × String))) : List (String × String) :=
  match optFiles with
  | some om => spreadMerge (buildFilesMap accumulated) om
  | none => buildFilesMap accumulated

/-! ## Helper lemmas -/

theorem extractFirst_perm (p : Task → Bool) :
    ∀ (l : List Task) (t : Task) (r : List Task),
      extractFirst p l = some (t, r) → l.Perm (t :: r) := by
  intro l
  induction l with
  | nil => intro t r h; simp [extractFirst] at h
  | cons a as ih =>
    intro t r h
    by_cases hp : p a
    · simp [extractFirst, hp] at h
      obtain ⟨h1, h2⟩ := h
      subst h1; subst h2
      exact List.Perm.refl _
    · simp [extractFirst, hp] at h
      obtain ⟨x, xs, hex, hxt, hxr⟩ := h
      subst hxt
      subst hxr
      exact ((ih x xs hex).cons a).trans (List.Perm.swap x a xs)

theorem extractFirst_eq_none (p : Task → Bool) :
    ∀ l : List Task, extractFirst p l = none ↔ ∀ t ∈ l, p t = false := by
  intro l
  induction l with
  | nil => simp [extractFirst]
  | cons a as ih =>
    by_cases hp : p a
    · simp [extractFirst, hp]
    · simp [extractFirst, hp, ih]

/-! ## Claim theorems -/

/-- C7: whenever the planning capability fails (the API call throws or the
parsed output is null/malformed), `generatePlan` returns a plan with exactly one
step whose description is the original task description verbatim, with order 1,
no dependencies, status pending, and `currentStepIndex = 0`; planning failure
never prevents execution (`generatePlan` always returns a plan). -/
theorem c7_fallback_plan (taskDescription : String) (e : String) :
    generatePlan taskDescription (.error e)
      = { steps := [{ id := "step-1", description := taskDescription
                    , status := .pending, order := 1, dependencies := []
                    , result := none, error := none }]
        , currentStepIndex := 0 }
    ∧ generatePlan taskDescription (.ok none)
      = { steps := [{ id := "step-1", description := taskDescription
                    , status := .pending, order := 1, dependencies := []
                    , result := none, error := none }]
        , currentStepIndex := 0 } :=
  ⟨rfl, rfl⟩

/-- C8: for every description and file list, whenever the commit-message
capability fails, returns null content, or returns the empty string,
`generateCommitMessage` returns exactly `"feat: " ++ description`. -/
theorem c8_commit_message_fallback (taskDescription : String) (files : List FileRec)
    (e : String) :
    generateCommitMessage taskDescription files (.error e) = "feat: " ++ taskDescription
    ∧ generateCommitMessage taskDescription files (.ok none) = "feat: " ++ taskDescription
    ∧ generateCommitMessage taskDescription files (.ok (some ""))
        = "feat: " ++ taskDescription :=
  ⟨rfl, rfl, rfl⟩

/-- C9: for every store, description and options record, `addTask` returns a
task with status pending that is appended at the tail of the pending partition;
its merged options have `createPR = true` unless the caller supplied `createPR`
explicitly `false`, and `baseBranch = "main"` exactly when the caller supplied
no `baseBranch`. -/
theorem c9_addTask_defaults (d : TaskQueueData) (id : String) (now : Nat)
    (taskDescription : String) (o : TaskOptions) :
    ∃ t : Task,
      (addTask id now taskDescription o (.ok d) true).1 = .ok t
      ∧ (addTask id now taskDescription o (.ok d) true).2.pending = d.pending ++ [t]
      ∧ t.status = .pending
      ∧ t.options.createPR = (if o.createPR = some false then some false else some true)
      ∧ t.options.baseBranch = (match o.baseBranch with
          | some s => some s
          | none => some "main") := by
  refine ⟨{ id := id, description := taskDescription, status := .pending
          , createdAt := now, options := mergeOptions o }, rfl, rfl, rfl, ?_, ?_⟩
  · rcases hc : o.createPR with _ | b
    · simp [mergeOptions, spreadField, hc]
    · cases b <;> simp [mergeOptions, spreadField, hc]
  · rcases hb : o.baseBranch with _ | s
    · simp [mergeOptions, spreadField, jsOrMain, hb]
    · simp [mergeOptions, spreadField, hb]

/-- C5: in the multi-step path, when the loop reaches a step (at index `i`, with
the plan's current statuses) that has a dependency which does not resolve to a
`completed` step, the whole task fails at once with the explicit
unmet-dependencies error: the state is returned untouched, so no code
generation (`execStep` event) is ever invoked for that step, and the step is
neither skipped nor reordered — the loop simply aborts. -/
theorem c5_dependency_gating (env : MultiStepEnv) (createPR : Bool)
    (fuel i : Nat) (st : RunState) (step : PlanStep)
    (hstep : st.steps[i]? = some step)
    (hdep : hasUnmetDeps st.steps step = true) :
    runAux env createPR (fuel + 1) i st = (.error (unmetDepsMsg step), st) := by
  simp [runAux, hstep, hdep]

/-- Witness environment and states for the orchestrator claims. -/
def envW : MultiStepEnv :=
  { exec := fun _ => .error "generation failed"
  , commitFiles := fun _ => .ok ()
  , createPRCall := .ok none
  , finalCommitMessage := "feat: demo" }

def stepAW : PlanStep :=
  { id := "step-A", description := "do A", status := .pending, order := 1, dependencies := [] }

def stepBW : PlanStep :=
  { id := "step-B", description := "do B", status := .pending, order := 2
  , dependencies := ["step-A"] }

def stC5 : RunState := { steps := [stepAW, stepBW], acc := [], pr := none, trace := [] }

theorem c5_dependency_gating_witness :
    runAux envW true 1 1 stC5 = (.error (unmetDepsMsg stepBW), stC5) :=
  c5_dependency_gating envW true 0 1 stC5 stepBW (by decide) (by decide)

/-- C6: in the multi-step path, if executing a step (at index `i`) fails, the
step is marked `failed` carrying the error, the whole task fails with that
error, and nothing further happens: the trace gains only the one `execStep i`
event, so the step's files are never committed and no later step is ever
executed or committed (no partial task completion). -/
theorem c6_step_failure_aborts_task (env : MultiStepEnv) (createPR : Bool)
    (fuel i : Nat) (st : RunState) (step : PlanStep) (e : String)
    (hstep : st.steps[i]? = some step)
    (hdep : hasUnmetDeps st.steps step = false)
    (hexec : env.exec i = .error e) :
    runAux env createPR (fuel + 1) i st
      = (.error e,
         { st with
           steps := st.steps.set i { step with status := .failed, error := some e }
           trace := st.trace ++ [.execStep i] }) := by
  simp [runAux, hstep, hdep, hexec, List.set_set]

def stC6 : RunState := { steps := [stepAW, stepBW], acc := [], pr := none, trace := [] }

theorem c6_step_failure_aborts_task_witness :
    runAux envW true 2 0 stC6
      = (.error "generation failed",
         { stC6 with
           steps := stC6.steps.set 0
             { stepAW with status := .failed, error := some "generation failed" }
           trace := stC6.trace ++ [.execStep 0] }) :=
  c6_step_failure_aborts_task envW true 1 0 stC6 stepAW "generation failed"
    (by decide) (by decide) rfl

/-- C4: retry round-trip. When the failed partition contains a task with the
requested id (the first match, as `findIndex` picks it), `retryTask` moves it to
the tail of the pending partition with status pending; `error`, `failedAt`,
`startedAt`, `completedAt` and `result` are all cleared, `createdAt` is reset to
now (hence newer than the original whenever the clock has advanced). When no
task in the failed partition has the id, `retryTask` fails with the NotFound
error and the persisted partitions are unchanged. -/
theorem c4_retry_round_trip (d : TaskQueueData) (taskId : String) (now : Nat) :
    (∀ t rest, extractFirst (fun u => u.id == taskId) d.failed = some (t, rest) →
      ∃ t', retryTask taskId now (.ok d) true
            = (.ok t', { d with failed := rest, pending := d.pending ++ [t'] })
        ∧ t'.id = t.id ∧ t'.status = .pending ∧ t'.createdAt = now
        ∧ t'.error = none ∧ t'.failedAt = none ∧ t'.startedAt = none
        ∧ t'.completedAt = none ∧ t'.result = none
        ∧ (t.createdAt < now → t.createdAt < t'.createdAt))
    ∧ ((∀ u ∈ d.failed, u.id ≠ taskId) →
        retryTask taskId now (.ok d) true
          = (.error ("Task " ++ taskId ++ " not found in failed queue"), d)) := by
  constructor
  · intro t rest hx
    refine ⟨{ t with
              status := .pending
              createdAt := now
              error := none
              failedAt := none
              startedAt := none
              completedAt := none
              result := none }, ?_, rfl, rfl, rfl, rfl, rfl, rfl, rfl, rfl, fun h => h⟩
    simp [retryTask, loadTasks, saveTasks, hx]
  · intro hnone
    have hx : extractFirst (fun u => u.id == taskId) d.failed = none := by
      rw [extractFirst_eq_none]
      intro u hu
      simpa using hnone u hu
    simp [retryTask, loadTasks, hx]

def taskC4 : Task :=
  { id := "task-1", description := "demo", status := .failed, createdAt := 3
  , failedAt := some 5, startedAt := some 4, error := some "boom" }

def storeC4 : TaskQueueData :=
  { pending := [], processing := [], completed := [], failed := [taskC4] }

theorem c4_retry_round_trip_witness :
    (∃ t', retryTask "task-1" 7 (.ok storeC4) true
          = (.ok t', { storeC4 with failed := [], pending := storeC4.pending ++ [t'] })
      ∧ t'.id = taskC4.id ∧ t'.status = .pending ∧ t'.createdAt = 7
      ∧ t'.error = none ∧ t'.failedAt = none ∧ t'.startedAt = none
      ∧ t'.completedAt = none ∧ t'.result = none
      ∧ (taskC4.createdAt < 7 → taskC4.createdAt < t'.createdAt))
    ∧ retryTask "task-9" 7 (.ok storeC4) true
        = (.error ("Task " ++ "task-9" ++ " not found in failed queue"), storeC4) :=
  ⟨(c4_retry_round_trip storeC4 "task-1" 7).1 taskC4 [] (by decide),
   (c4_retry_round_trip storeC4 "task-9" 7).2 (by decide)⟩

/-- C1 counterexample: the claim that a failure to read the persisted store
propagates to the caller is false. With an unreadable store (`loadTasks` throws,
modelled by `.error`), `addTask` succeeds — it returns `.ok` with the new task
and persists a store containing only that task, exactly as if the store had
been empty, silently discarding whatever the unreadable file held. -/
theorem c1_counterexample_read_failure_swallowed :
    (addTask "task-1" 5 "demo" {} (.error "EIO: read failed") true).1
      = .ok { id := "task-1", description := "demo", status := .pending
            , createdAt := 5, options := mergeOptions {} }
    ∧ (addTask "task-1" 5 "demo" {} (.error "EIO: read failed") true).2
      = { emptyQueueData with
          pending := [{ id := "task-1", description := "demo", status := .pending
                      , createdAt := 5, options := mergeOptions {} }] } :=
  ⟨rfl, rfl⟩

/-- C1 (amended): a failure to WRITE the persisted store propagates to the
caller of every mutating operation that reaches its write (addTask always;
getNextTask when pending is non-empty; completeTask, failTask, retryTask when
the task id is found). A failure to READ does not propagate: `loadTasks`
catches it and the operation proceeds as if the store were empty. -/
theorem c1_amended_write_failure_propagates (d : TaskQueueData)
    (e taskId taskDescription errMsg : String) (now : Nat) (o : TaskOptions)
    (res : TaskResult) (readResult : Except String TaskQueueData) :
    loadTasks (.error e) = emptyQueueData
    ∧ (addTask taskId now taskDescription o readResult false).1 = .error "Error saving tasks"
    ∧ (d.pending ≠ [] → (getNextTask now (.ok d) false).1 = .error "Error saving tasks")
    ∧ (∀ t rest, extractFirst (fun u => u.id == taskId) d.processing = some (t, rest) →
        (completeTask taskId now res (.ok d) false).1 = .error "Error saving tasks")
    ∧ (∀ t rest, extractFirst (fun u => u.id == taskId) d.processing = some (t, rest) →
        (failTask taskId now errMsg (.ok d) false).1 = .error "Error saving tasks")
    ∧ (∀ t rest, extractFirst (fun u => u.id == taskId) d.processing = none →
        extractFirst (fun u => u.id == taskId) d.pending = some (t, rest) →
        (failTask taskId now errMsg (.ok d) false).1 = .error "Error saving tasks")
    ∧ (∀ t rest, extractFirst (fun u => u.id == taskId) d.failed = some (t, rest) →
        (retryTask taskId now (.ok d) false).1 = .error "Error saving tasks") := by
  refine ⟨rfl, rfl, ?_, ?_, ?_, ?_, ?_⟩
  · intro hne
    rcases hp : d.pending with _ | ⟨t, rest⟩
    · exact absurd hp hne
    · simp [getNextTask, loadTasks, saveTasks, hp]
  · intro t rest hx
    simp [completeTask, loadTasks, saveTasks, hx]
  · intro t rest hx
    simp [failTask, loadTasks, saveTasks, hx]
  · intro t rest hx1 hx2
    simp [failTask, loadTasks, saveTasks, hx1, hx2]
  · intro t rest hx
    simp [retryTask, loadTasks, saveTasks, hx]

def taskP1 : Task :=
  { id := "p1", description := "pending demo", status := .pending, createdAt := 1 }

def taskR1 : Task :=
  { id := "r1", description := "processing demo", status := .processing, createdAt := 1
  , startedAt := some 2 }

def taskF1 : Task :=
  { id := "f1", description := "failed demo", status := .failed, createdAt := 1
  , failedAt := some 3, error := some "boom" }

def storeC1 : TaskQueueData :=
  { pending := [taskP1], processing := [taskR1], completed := [], failed := [taskF1] }

def resC1 : TaskResult :=
  { success := true, taskId := "r1", branchName := "feature/r1", files := []
  , commitMessage := "feat: demo" }

theorem c1_amended_write_failure_propagates_witness :
    loadTasks (.error "EIO") = emptyQueueData
    ∧ (addTask "p9" 5 "demo" {} (.ok storeC1) false).1 = .error "Error saving tasks"
    ∧ (getNextTask 5 (.ok storeC1) false).1 = .error "Error saving tasks"
    ∧ (completeTask "r1" 5 resC1 (.ok storeC1) false).1 = .error "Error saving tasks"
    ∧ (failTask "r1" 5 "boom" (.ok storeC1) false).1 = .error "Error saving tasks"
    ∧ (failTask "p1" 5 "boom" (.ok storeC1) false).1 = .error "Error saving tasks"
    ∧ (retryTask "f1" 5 (.ok storeC1) false).1 = .error "Error saving tasks" :=
  ⟨(c1_amended_write_failure_propagates storeC1 "EIO" "p9" "demo" "boom" 5 {} resC1
      (.ok storeC1)).1,
   (c1_amended_write_failure_propagates storeC1 "EIO" "p9" "demo" "boom" 5 {} resC1
      (.ok storeC1)).2.1,
   (c1_amended_write_failure_propagates storeC1 "EIO" "p9" "demo" "boom" 5 {} resC1
      (.ok storeC1)).2.2.1 (by decide),
   (c1_amended_write_failure_propagates storeC1 "EIO" "r1" "demo" "boom" 5 {} resC1
      (.ok storeC1)).2.2.2.1 taskR1 [] (by decide),
   (c1_amended_write_failure_propagates storeC1 "EIO" "r1" "demo" "boom" 5 {} resC1
      (.ok storeC1)).2.2.2.2.1 taskR1 [] (by decide),
   (c1_amended_write_failure_propagates storeC1 "EIO" "p1" "demo" "boom" 5 {} resC1
      (.ok storeC1)).2.2.2.2.2.1 taskP1 [] (by decide) (by decide),
   (c1_amended_write_failure_propagates storeC1 "EIO" "f1" "demo" "boom" 5 {} resC1
      (.ok storeC1)).2.2.2.2.2.2 taskF1 [] (by decide)⟩

theorem drainN_spec (now : Nat) :
    ∀ (n : Nat) (d : TaskQueueData),
      (drainN now n d).1 = (d.pending.take n).map (stampProcessing now)
      ∧ (drainN now n d).2
          = { d with
              pending := d.pending.drop n
              processing := d.processing ++ (d.pending.take n).map (stampProcessing now) } := by
  intro n
  induction n with
  | zero =>
    intro d
    refine ⟨rfl, ?_⟩
    cases d
    simp [drainN]
  | succ n ih =>
    intro d
    rcases hp : d.pending with _ | ⟨t, rest⟩
    · constructor
      · simp [drainN, getNextTask, loadTasks, hp]
      · cases d
        simp_all [drainN, getNextTask, loadTasks]
    · have hstep : getNextTask now (.ok d) true
          = (.ok (some (stampProcessing now t)),
             { d with
               pending := rest
               processing := d.processing ++ [stampProcessing now t] }) := by
        simp [getNextTask, loadTasks, saveTasks, stampProcessing, hp]
      have ihd := ih { d with
                      pending := rest
                      processing := d.processing ++ [stampProcessing now t] }
      constructor
      · simp [drainN, hstep, ihd.1, hp]
      · simp [drainN, hstep, ihd.2, hp, List.append_assoc]

theorem addAll_spec (ps : List AddParams) :
    ∀ d : TaskQueueData, addAll ps d = { d with pending := d.pending ++ ps.map mkTask } := by
  induction ps with
  | nil =>
    intro d
    cases d
    simp [addAll]
  | cons p rest ih =>
    intro d
    have hone : (addTask p.id p.now p.description p.options (.ok d) true).2
        = { d with pending := d.pending ++ [mkTask p] } := by
      simp [addTask, loadTasks, saveTasks, mkTask]
    calc addAll (p :: rest) d
        = addAll rest (addTask p.id p.now p.description p.options (.ok d) true).2 := rfl
      _ = addAll rest { d with pending := d.pending ++ [mkTask p] } := by rw [hone]
      _ = { d with pending := d.pending ++ (p :: rest).map mkTask } := by
            rw [ih]
            simp

/-- C3: FIFO dequeue. Starting from a store with an empty pending partition,
after any sequence of `addTask` calls, a sequence of `getNextTask` calls (with
no intervening completion or failure) removes and returns exactly the added
tasks in the order they were added, each stamped with `startedAt = now` and
status processing; the pending partition retains the not-yet-dequeued suffix,
and when the pending partition is empty `getNextTask` returns none without
error and without modifying the store. -/
theorem c3_fifo_dequeue (d : TaskQueueData) (ps : List AddParams) (n : Nat) (now : Nat)
    (h : d.pending = []) :
    (drainN now n (addAll ps d)).1 = ((ps.map mkTask).take n).map (stampProcessing now)
    ∧ (drainN now n (addAll ps d)).2.pending = (ps.map mkTask).drop n
    ∧ (∀ t, t ∈ (drainN now n (addAll ps d)).1 →
        t.status = .processing ∧ t.startedAt = some now)
    ∧ getNextTask now (.ok d) true = (.ok none, d) := by
  have hadd := addAll_spec ps d
  have hdrain := drainN_spec now n (addAll ps d)
  refine ⟨?_, ?_, ?_, ?_⟩
  · rw [hdrain.1, hadd, h]
    simp
  · rw [hdrain.2, hadd, h]
    simp
  · intro t ht
    rw [hdrain.1] at ht
    obtain ⟨u, _, hu⟩ := List.mem_map.mp ht
    rw [← hu]
    exact ⟨rfl, rfl⟩
  · simp [getNextTask, loadTasks, h]

def psC3 : List AddParams :=
  [ { id := "a", now := 1, description := "first", options := {} }
  , { id := "b", now := 2, description := "second", options := {} } ]

theorem c3_fifo_dequeue_witness :
    (drainN 9 2 (addAll psC3 emptyQueueData)).1
      = ((psC3.map mkTask).take 2).map (stampProcessing 9)
    ∧ (drainN 9 2 (addAll psC3 emptyQueueData)).2.pending = (psC3.map mkTask).drop 2
    ∧ (∀ t, t ∈ (drainN 9 2 (addAll psC3 emptyQueueData)).1 →
        t.status = .processing ∧ t.startedAt = some 9)
    ∧ getNextTask 9 (.ok emptyQueueData) true = (.ok none, emptyQueueData) :=
  c3_fifo_dequeue emptyQueueData psC3 2 9 rfl

/-- Number of occurrences of an id in the whole store. -/
def idCount (d : TaskQueueData) (s : String) : Nat := (allIds d).count s

theorem exclusive_iff_count (d : TaskQueueData) :
    ExclusivePartition d ↔ ∀ s, idCount d s ≤ 1 := by
  unfold ExclusivePartition idCount
  exact List.nodup_iff_count_le_one

theorem count_extract {p : Task → Bool} {l : List Task} {t : Task} {r : List Task}
    (h : extractFirst p l = some (t, r)) (s : String) :
    (l.map Task.id).count s = (r.map Task.id).count s + (if t.id = s then 1 else 0) := by
  have hp := (extractFirst_perm p l t r h).map Task.id
  have hc := hp.count_eq s
  simp only [List.map_cons, List.count_cons] at hc
  by_cases hts : t.id = s
  · simp [hts] at hc ⊢
    omega
  · have : (s == t.id) = false := by
      simp [hts]
      exact fun hcontra => hts hcontra.symm
    simp [this, hts] at hc ⊢
    omega

theorem idCount_addTask (d : TaskQueueData) (id : String) (now : Nat)
    (taskDescription : String) (o : TaskOptions) (s : String) :
    idCount (addTask id now taskDescription o (.ok d) true).2 s
      = idCount d s + (if id = s then 1 else 0) := by
  simp [addTask, loadTasks, saveTasks, idCount, allIds, List.count_append, List.count_cons]
  by_cases his : id = s
  · simp [his]
    omega
  · have : (s == id) = false := by
      simp [his]
      exact fun hcontra => his hcontra.symm
    simp [this, his]

theorem idCount_getNextTask (d : TaskQueueData) (now : Nat) (s : String) :
    idCount (getNextTask now (.ok d) true).2 s = idCount d s := by
  rcases hp : d.pending with _ | ⟨t, rest⟩
  · simp [getNextTask, loadTasks, hp]
  · simp [getNextTask, loadTasks, saveTasks, hp, idCount, allIds,
      List.count_append, List.count_cons]
    omega

theorem idCount_completeTask (d : TaskQueueData) (taskId : String) (now : Nat)
    (res : TaskResult) (s : String) :
    idCount (completeTask taskId now res (.ok d) true).2 s = idCount d s := by
  rcases hx : extractFirst (fun u => u.id == taskId) d.processing with _ | ⟨t, rest⟩
  · simp [completeTask, loadTasks, hx]
  · have hc := count_extract hx s
    simp [completeTask, loadTasks, saveTasks, hx, idCount, allIds,
      List.count_append, List.count_cons]
    omega

theorem idCount_failTask (d : TaskQueueData) (taskId : String) (now : Nat)
    (errMsg : String) (s : String) :
    idCount (failTask taskId now errMsg (.ok d) true).2 s = idCount d s := by
  rcases hx : extractFirst (fun u => u.id == taskId) d.processing with _ | ⟨t, rest⟩
  · rcases hy : extractFirst (fun u => u.id == taskId) d.pending with _ | ⟨t, rest⟩
    · simp [failTask, loadTasks, hx, hy]
    · have hc := count_extract hy s
      simp [failTask, loadTasks, saveTasks, hx, hy, idCount, allIds,
        List.count_append, List.count_cons]
      omega
  · have hc := count_extract hx s
    simp [failTask, loadTasks, saveTasks, hx, idCount, allIds,
      List.count_append, List.count_cons]
    omega

theorem idCount_retryTask (d : TaskQueueData) (taskId : String) (now : Nat) (s : String) :
    idCount (retryTask taskId now (.ok d) true).2 s = idCount d s := by
  rcases hx : extractFirst (fun u => u.id == taskId) d.failed with _ | ⟨t, rest⟩
  · simp [retryTask, loadTasks, hx]
  · have hc := count_extract hx s
    simp [retryTask, loadTasks, saveTasks, hx, idCount, allIds,
      List.count_append, List.count_cons]
    omega

/-- C2: partition exclusivity is preserved by every Queue Store operation. From
any store in which each task id appears in exactly one partition (and once),
`addTask` with a fresh generated id, `getNextTask`, `completeTask`, `failTask`
and `retryTask` all yield a store in which each task id still appears in
exactly one partition — never in two and never in none. -/
theorem c2_partition_exclusivity (d : TaskQueueData)
    (hd : ExclusivePartition d) (newId : String) (hfresh : newId ∉ allIds d)
    (now : Nat) (taskDescription : String) (o : TaskOptions) (res : TaskResult)
    (errMsg cId fId rId : String) :
    ExclusivePartition (addTask newId now taskDescription o (.ok d) true).2
    ∧ ExclusivePartition (getNextTask now (.ok d) true).2
    ∧ ExclusivePartition (completeTask cId now res (.ok d) true).2
    ∧ ExclusivePartition (failTask fId now errMsg (.ok d) true).2
    ∧ ExclusivePartition (retryTask rId now (.ok d) true).2 := by
  have hcnt := (exclusive_iff_count d).mp hd
  have hfresh' : idCount d newId = 0 := by
    unfold idCount
    exact List.count_eq_zero.mpr hfresh
  refine ⟨?_, ?_, ?_, ?_, ?_⟩
  · rw [exclusive_iff_count]
    intro s
    rw [idCount_addTask]
    by_cases his : newId = s
    · subst his
      simp [hfresh']
    · simp [his]
      exact hcnt s
  · rw [exclusive_iff_count]
    intro s
    rw [idCount_getNextTask]
    exact hcnt s
  · rw [exclusive_iff_count]
    intro s
    rw [idCount_completeTask]
    exact hcnt s
  · rw [exclusive_iff_count]
    intro s
    rw [idCount_failTask]
    exact hcnt s
  · rw [exclusive_iff_count]
    intro s
    rw [idCount_retryTask]
    exact hcnt s

theorem c2_partition_exclusivity_witness :
    ExclusivePartition (addTask "z9" 5 "demo" {} (.ok storeC1) true).2
    ∧ ExclusivePartition (getNextTask 5 (.ok storeC1) true).2
    ∧ ExclusivePartition (completeTask "r1" 5 resC1 (.ok storeC1) true).2
    ∧ ExclusivePartition (failTask "p1" 5 "boom" (.ok storeC1) true).2
    ∧ ExclusivePartition (retryTask "f1" 5 (.ok storeC1) true).2 :=
  c2_partition_exclusivity storeC1 (by decide) "z9" (by decide) 5 "demo" {} resC1
    "boom" "r1" "p1" "f1"

theorem lookupKey_cons (x : String × String) (xs : List (String × String)) (k : String) :
    lookupKey (x :: xs) k = if x.1 == k then some x.2 else lookupKey xs k := by
  by_cases h : x.1 == k <;> simp [lookupKey, List.find?_cons, h]

theorem lookupKey_map_replace_ne (k v k' : String) (hne : k' ≠ k) :
    ∀ m : List (String × String),
      lookupKey (m.map (replaceKey k v)) k' = lookupKey m k' := by
  intro m
  induction m with
  | nil => rfl
  | cons x xs ih =>
    rw [List.map_cons, lookupKey_cons, lookupKey_cons, ih]
    by_cases hx : x.1 = k
    · have hrx : replaceKey k v x = (k, v) := by simp [replaceKey, hx]
      have h1 : (k == k') = false := beq_eq_false_iff_ne.mpr (Ne.symm hne)
      have h2 : (x.1 == k') = false := by
        rw [hx]
        exact h1
      rw [hrx, h1, h2]
      simp
    · have hrx : replaceKey k v x = x := by simp [replaceKey, hx]
      rw [hrx]

theorem lookupKey_map_replace_hit (k v : String) :
    ∀ m : List (String × String), m.any (fun kv => kv.1 == k) = true →
      lookupKey (m.map (replaceKey k v)) k = some v := by
  intro m
  induction m with
  | nil => intro h; simp at h
  | cons x xs ih =>
    intro hany
    by_cases hx : x.1 = k
    · have hrx : replaceKey k v x = (k, v) := by simp [replaceKey, hx]
      rw [List.map_cons, lookupKey_cons, hrx]
      simp
    · have hx' : (x.1 == k) = false := beq_eq_false_iff_ne.mpr hx
      have hrx : replaceKey k v x = x := by simp [replaceKey, hx]
      have hany' : xs.any (fun kv => kv.1 == k) = true := by
        rw [List.any_cons, hx'] at hany
        simpa using hany
      rw [List.map_cons, lookupKey_cons, hrx, hx', ih hany']
      simp

theorem lookupKey_append_fresh (k v k' : String) :
    ∀ m : List (String × String), m.any (fun kv => kv.1 == k) = false →
      lookupKey (m ++ [(k, v)]) k' = if k' = k then some v else lookupKey m k' := by
  intro m
  induction m with
  | nil =>
    intro _
    by_cases hk : k' = k
    · rw [List.nil_append, lookupKey_cons]
      simp [hk]
    · rw [List.nil_append, lookupKey_cons]
      have h1 : (k == k') = false := beq_eq_false_iff_ne.mpr fun h => hk h.symm
      simp [h1, hk, lookupKey]
  | cons x xs ih =>
    intro hany
    rw [List.any_cons] at hany
    have hx : (x.1 == k) = false := by
      cases h : x.1 == k
      · rfl
      · rw [h] at hany
        simp at hany
    have hxs : xs.any (fun kv => kv.1 == k) = false := by
      rw [hx] at hany
      simpa using hany
    rw [List.cons_append, lookupKey_cons, lookupKey_cons, ih hxs]
    by_cases hk : k' = k
    · have h2 : (x.1 == k') = false := by
        rw [hk]
        exact hx
      rw [h2]
      simp [hk]
    · by_cases hx' : x.1 = k'
      · simp [hx', hk]
      · have h2 : (x.1 == k') = false := beq_eq_false_iff_ne.mpr hx'
        rw [h2]
        simp [hk]

theorem lookupKey_setKey (m : List (String × String)) (k v k' : String) :
    lookupKey (setKey m k v) k' = if k' = k then some v else lookupKey m k' := by
  cases hany : m.any (fun kv => kv.1 == k)
  · rw [setKey, hany]
    simpa using lookupKey_append_fresh k v k' m hany
  · rw [setKey, hany]
    by_cases hk : k' = k
    · subst hk
      simp [lookupKey_map_replace_hit k' v m hany]
    · simp [lookupKey_map_replace_ne k v k' hk m, hk]

theorem lookupKey_eq_none_of_not_mem (m : List (String × String)) (k : String)
    (h : k ∉ m.map Prod.fst) : lookupKey m k = none := by
  induction m with
  | nil => rfl
  | cons x xs ih =>
    rw [List.map_cons, List.mem_cons, not_or] at h
    have h1 : (x.1 == k) = false := beq_eq_false_iff_ne.mpr fun hc => h.1 hc.symm
    rw [lookupKey_cons, h1]
    simpa using ih h.2

theorem lookupKey_spreadMerge :
    ∀ (m2 m1 : List (String × String)), (m2.map Prod.fst).Nodup →
      ∀ k, lookupKey (spreadMerge m1 m2) k
        = (match lookupKey m2 k with
           | some v => some v
           | none => lookupKey m1 k) := by
  intro m2
  induction m2 with
  | nil =>
    intro m1 _ k
    simp [spreadMerge, lookupKey]
  | cons x xs ih =>
    intro m1 hnd k
    rw [List.map_cons] at hnd
    obtain ⟨hx, hxs⟩ := List.nodup_cons.mp hnd
    have hstep : spreadMerge m1 (x :: xs) = spreadMerge (setKey m1 x.1 x.2) xs := rfl
    rw [hstep, ih (setKey m1 x.1 x.2) hxs k]
    by_cases hk : k = x.1
    · have hxsnone : lookupKey xs k = none := by
        rw [hk]
        exact lookupKey_eq_none_of_not_mem xs x.1 hx
      rw [lookupKey_cons, hxsnone, lookupKey_setKey]
      simp [hk]
    · have h1 : (x.1 == k) = false := beq_eq_false_iff_ne.mpr fun hc => hk hc.symm
      rw [lookupKey_cons, h1, lookupKey_setKey]
      cases lookupKey xs k <;> simp [hk]

/-- C10: in `processStep` of the multi-step path, the existing-files context
passed to code generation is the union of the files accumulated from earlier
steps (`existingFilesMap`) and the caller-supplied `options.existingFiles`
(spread last, with no duplicate keys in a JS record): a path found in the
caller-supplied record takes its caller-supplied content, a path found only in
the accumulated files takes its accumulated content, and any other path is
absent; when the caller supplied no record, the context is exactly the
accumulated files map. -/
theorem c10_step_context_merge (accumulated : List FileRec)
    (om : List (String × String)) (p : String)
    (hnd : (om.map Prod.fst).Nodup) :
    lookupKey (stepContextFiles accumulated (some om)) p
      = (match lookupKey om p with
         | some c => some c
         | none => lookupKey (buildFilesMap accumulated) p)
    ∧ stepContextFiles accumulated none = buildFilesMap accumulated :=
  ⟨lookupKey_spreadMerge om (buildFilesMap accumulated) hnd p, rfl⟩

def accC10 : List FileRec :=
  [ { path := "a.txt", content := "accumulated-a" }
  , { path := "b.txt", content := "accumulated-b" } ]

def omC10 : List (String × String) :=
  [("a.txt", "caller-a"), ("c.txt", "caller-c")]

theorem c10_step_context_merge_witness :
    lookupKey (stepContextFiles accC10 (some omC10)) "a.txt"
      = (match lookupKey omC10 "a.txt" with
         | some c => some c
         | none => lookupKey (buildFilesMap accC10) "a.txt")
    ∧ stepContextFiles accC10 none = buildFilesMap accC10 :=
  c10_step_context_merge accC10 omC10 "a.txt" (by decide)

end CodeAgent
